import Mathlib

/-!
Verification of `qutebrowser/mainwindow/urlbar/urlbar.py` (the `UrlBar`
widget) against its natural-language specification.

The Python module is embedded shallowly:

* Parsed HTML documents (what `BeautifulSoup(html, "html.parser")` yields)
  are modelled by the mutual inductive types `Node` / `NodeList`: an
  element node carries its tag name, its attribute list and its children,
  in document order.  The `class` attribute is stored as the raw
  space-separated string, as in HTML.
* BeautifulSoup traversals (`findAll`, `find`, `find_parent`, `.text`,
  `.get`) are translated as pure recursive functions over that tree.
* Python exceptions that the scraping loop can raise (`IndexError` from
  `links[0]` on an empty list, `TypeError` from `x in None` / `None in x`)
  are modelled with `Except PyErr`.
* The widget's mutable attributes become the fields of the structure `St`,
  its trace file becomes the `log : List LogEntry` field, and the capture
  directory becomes the `files` association list from capture id to the
  written document (the date stamp `TODAY` is a fixed constant of a run,
  so a file name `TODAY-<id>.html` is identified with its id).
* Each Qt slot of the widget becomes a state-transition function, and an
  `Event` type with a `step` function ties them into traces.
-/

namespace Urlbar

mutual
/-- A node of a parsed HTML document: an element with tag name, attributes
and children (in document order), or a text node. -/
inductive Node where
  | elem (tag : String) (attrs : List (String × String)) (children : NodeList)
  | text (s : String)
  deriving DecidableEq, Repr
/-- A list of sibling HTML nodes; a whole parsed document is the list of
its top-level nodes. -/
inductive NodeList where
  | nil
  | cons (head : Node) (tail : NodeList)
  deriving DecidableEq, Repr
end

/-- Attribute lookup, modelling `tag.get(key)` / `tag[key]` of BeautifulSoup. -/
def attrGet (n : Node) (k : String) : Option String :=
  match n with
  | .elem _ attrs _ => (attrs.find? (fun p => p.1 == k)).map (fun p => p.2)
  | .text _ => none

/-- The tag name of an element node. -/
def tagOf : Node → Option String
  | .elem t _ _ => some t
  | .text _ => none

/-- The children of a node (`tag.contents`). -/
def childrenOf : Node → NodeList
  | .elem _ _ cs => cs
  | .text _ => .nil

/-- Splitting of a character list at each space, accumulating the current
word in reverse; this is how the `class` attribute string is turned into
the list of classes of a tag. -/
def splitWords : List Char → List Char → List (List Char)
  | [], acc => [acc.reverse]
  | c :: rest, acc =>
      if c = ' ' then acc.reverse :: splitWords rest []
      else splitWords rest (c :: acc)

/-- Class matching as BeautifulSoup does it for the multi-valued `class`
attribute: the sought class must occur among the space-separated classes. -/
def hasClass (n : Node) (c : String) : Bool :=
  match attrGet n "class" with
  | some s => (splitWords s.data []).contains c.data
  | none => false

/-- A result heading, i.e. a node matched by `soup.findAll("h3", {"class": "LC20lb"})`. -/
def isResultHeading (n : Node) : Bool :=
  tagOf n == some "h3" && hasClass n "LC20lb"

/-- A hyperlink element, i.e. a node matched by `find_all('a')`. -/
def isAnchor (n : Node) : Bool :=
  tagOf n == some "a"

/-- The node matched by `soup.find("div", {"id": "foot"})`. -/
def isFootDiv (n : Node) : Bool :=
  tagOf n == some "div" && attrGet n "id" == some "foot"

/-- A table cell, matched by `footer.find_all('td')`. -/
def isTd (n : Node) : Bool :=
  tagOf n == some "td"

/-- The node matched by `td.find("span", {"class", "csb"})`.  The second
argument in the source is a Python set, which BeautifulSoup treats as a
search against the `class` attribute matching any of the set's members, so
a span whose class list contains `csb` or `class` matches. -/
def isCsbSpan (n : Node) : Bool :=
  tagOf n == some "span" && (hasClass n "csb" || hasClass n "class")

mutual
/-- `soup.findAll("h3", {"class": "LC20lb"})` in document (pre-order)
order, returning each matching heading together with its nearest enclosing
`div` element — exactly what `t.find_parent('div')` later retrieves for it.
The accumulator `ndiv` is the nearest `div` ancestor of the current node. -/
def headingsIn (ndiv : Option Node) : Node → List (Node × Option Node)
  | .text _ => []
  | .elem t a cs =>
      (if isResultHeading (.elem t a cs) then [((.elem t a cs : Node), ndiv)] else []) ++
      headingsInList (if t == "div" then some (.elem t a cs) else ndiv) cs
/-- The traversal of `headingsIn` over a list of sibling trees. -/
def headingsInList (ndiv : Option Node) : NodeList → List (Node × Option Node)
  | .nil => []
  | .cons c cs => headingsIn ndiv c ++ headingsInList ndiv cs
end

mutual
/-- The first node among the trees of a list (roots included, pre-order)
that satisfies `p`; this is `soup.find(...)` when applied to a document's
top-level nodes, and `tag.find(...)` when applied to a tag's children. -/
def firstIn (p : Node → Bool) : NodeList → Option Node
  | .nil => none
  | .cons c cs =>
      match firstInNode p c with
      | some r => some r
      | none => firstIn p cs
/-- The first node in a single tree (the root included) satisfying `p`. -/
def firstInNode (p : Node → Bool) : Node → Option Node
  | .text s => if p (.text s) then some (.text s) else none
  | .elem t a cs =>
      if p (.elem t a cs) then some (.elem t a cs) else firstIn p cs
end

mutual
/-- All nodes among the trees of a list (roots included, pre-order) that
satisfy `p`; `tag.find_all(...)` applied to a tag's children searches all
of the tag's descendants this way. -/
def allIn (p : Node → Bool) : NodeList → List Node
  | .nil => []
  | .cons c cs => allInNode p c ++ allIn p cs
/-- All nodes in a single tree (the root included) satisfying `p`. -/
def allInNode (p : Node → Bool) : Node → List Node
  | .text s => if p (.text s) then [(.text s : Node)] else []
  | .elem t a cs =>
      (if p (.elem t a cs) then [(.elem t a cs : Node)] else []) ++ allIn p cs
end

mutual
/-- Concatenation of all text in a tree, modelling `tag.text`. -/
def textOf : Node → String
  | .text s => s
  | .elem _ _ cs => textOfList cs
/-- Concatenation of all text in a list of trees. -/
def textOfList : NodeList → String
  | .nil => ""
  | .cons c cs => textOf c ++ textOfList cs
end

/-- Python's substring test `needle in hay` on strings. -/
def isSubstr (needle hay : String) : Bool :=
  decide (needle.data <:+: hay.data)

/-- The Python exceptions the scraping loop can raise: `links[0]` on an
empty list raises `IndexError`; `x in None` and `None in x` raise
`TypeError`. -/
inductive PyErr where
  | indexError
  | typeError
  deriving DecidableEq, Repr

/-- Decidable equality for `Except`, so that concrete runs of the fallible
scraper can be checked by `decide`. -/
instance {ε α : Type} [DecidableEq ε] [DecidableEq α] : DecidableEq (Except ε α) := fun x y =>
  match x, y with
  | .ok a, .ok b =>
      if h : a = b then .isTrue (by subst h; rfl)
      else .isFalse (by intro hc; injection hc; contradiction)
  | .error a, .error b =>
      if h : a = b then .isTrue (by subst h; rfl)
      else .isFalse (by intro hc; injection hc; contradiction)
  | .ok _, .error _ => .isFalse (by intro hc; injection hc)
  | .error _, .ok _ => .isFalse (by intro hc; injection hc)

/-- The first hyperlink of a heading's enclosing block, `parentdiv.find_all('a')[0]`
(searching the block's descendants), when the block exists and has one. -/
def blockFirstLink (ndiv : Option Node) : Option Node :=
  ndiv.bind (fun pd => (allIn isAnchor (childrenOf pd)).head?)

/-- The address the scan compares against for one heading: the `href`
attribute of its enclosing block's first hyperlink. -/
def headingHref (e : Node × Option Node) : Option String :=
  (blockFirstLink e.2).bind (fun l => attrGet l "href")

/-- The `for t in soup.findAll(...)` loop of `getGoogleRanking`, with the
running `found` and `rank` variables (initially `-1` and `1`).  A heading
whose `find_parent('div')` is `None` is skipped without incrementing
`rank`; otherwise `links[0]` on a block without hyperlinks raises
`IndexError`, and the substring test raises `TypeError` when the first
hyperlink has no `href` or when `previous_url` is `None`. -/
def scanResults (prev : Option String) :
    List (Node × Option Node) → Int → Nat → Except PyErr (Int × Nat)
  | [], found, rank => .ok (found, rank)
  | e :: rest, found, rank =>
      match e.2 with
      | none => scanResults prev rest found rank
      | some pd =>
          match (allIn isAnchor (childrenOf pd)).head? with
          | none => .error .indexError
          | some l0 =>
              match attrGet l0 "href" with
              | none => .error .typeError
              | some href =>
                  match prev with
                  | none => .error .typeError
                  | some p =>
                      scanResults prev rest
                        (if isSubstr p href then (rank : Int) else found) (rank + 1)

/-- Python truthiness of a `find` result: `None` is falsy, and a found
tag is falsy too when it has no children (bs4 tags answer `len` with
their child count and define no separate boolean conversion). -/
def foundTruthy (o : Option Node) : Bool :=
  match o with
  | none => false
  | some n =>
      match childrenOf n with
      | .nil => false
      | .cons _ _ => true

/-- The page-number label computed from the pagination footer
(`soup.find("div", {"id": "foot"})`): when the footer is truthy (found
and non-empty), concatenate the text of every `td` cell of the footer
whose `csb` page marker span is truthy and whose first hyperlink lookup
is falsy (`if id and not a:`); when no truthy footer exists, the label is
the unknown marker `"?"`. -/
def pageLabel (doc : NodeList) : String :=
  match firstIn isFootDiv doc with
  | none => "?"
  | some footer =>
      if foundTruthy (some footer) then
        (allIn isTd (childrenOf footer)).foldl
          (fun page td =>
            if foundTruthy (firstIn isCsbSpan (childrenOf td)) &&
               !foundTruthy (firstIn isAnchor (childrenOf td)) then
              (if textOf td != "" then page ++ textOf td else page)
            else page) ""
      else "?"

/-- The whole of `getGoogleRanking(html)` for a non-`None` document:
the result-heading scan followed by the footer scan, producing the values
logged as `RANK;<found>;SUR:;<rank-1>;PAGE;<label>`.  A raised exception
aborts the call before anything is logged. -/
def getGoogleRanking (prev : Option String) (doc : NodeList) :
    Except PyErr (Int × Nat × String) :=
  match scanResults prev (headingsInList none doc) (-1) 1 with
  | .error e => .error e
  | .ok (found, rank) => .ok (found, rank - 1, pageLabel doc)

/-- The URL-vs-search-query resolution performed by `on_press_enter` on the
entered text: a string containing a dot but neither `http://` nor
`https://` anywhere is prefixed with `http://`; a string without a dot
becomes a Google search query URL; anything else is passed through. -/
def resolveAddress (url : String) : String :=
  if isSubstr "." url && (!isSubstr "http://" url && !isSubstr "https://" url) then
    "http://" ++ url
  else if !isSubstr "." url then
    "http://www.google.com/search?q=" ++ url
  else
    url

/-- The `UrlType` enum of the module. -/
inductive UrlType where
  | success
  | success_https
  | error
  | warn
  | hover
  | normal
  deriving DecidableEq, Repr

/-- The subset of `usertypes.LoadStatus` values the widget distinguishes:
the four it maps onto `UrlType`, and any other status. -/
inductive LoadStatus where
  | success
  | success_https
  | error
  | warn
  | other
  deriving DecidableEq, Repr

/-- One line of the `trace.txt` log, by its tag and payload (timestamps
are not modelled; the order of entries is the emission order). -/
inductive LogEntry where
  | start
  | saisie (url : String)
  | loadStarted
  | loadFinished (captureId : Nat) (url : String)
  | urlChanged (url : String)
  | linkHovered (link : String)
  | rank (found : Int) (total : Nat) (page : String)
  | afficheRecherche
  | recherche (txt : String)
  | rechercheSuivant (txt : String)
  | recherchePrecedent (txt : String)
  deriving DecidableEq, Repr

/-- An argument passed to `on_set_url`: `None`, an invalid `QUrl`, or a
valid one together with what `urlutils.safe_display_string` renders it as
(that utility belongs to the host application, so its output is taken as
an input of the model). -/
inductive UrlArg where
  | null
  | invalid (raw : String)
  | valid (display : String)
  deriving DecidableEq, Repr

/-- The mutable state of the `UrlBar` widget, together with its two file
side effects: `log` is the content of `trace.txt` (one entry per line, in
order) and `files` is the capture directory for today's date, an
association list from capture id (the file `TODAY-<id>.html`) to the
document written there.  `urlText` is the text of the `QLineEdit`. -/
structure St where
  ignoreFirstLoad : Bool
  lastHtml : Option NodeList
  previousUrl : Option String
  normalUrl : Option String
  normalUrlType : UrlType
  hoverUrl : Option String
  urltype : Option UrlType
  urlText : String
  log : List LogEntry
  files : List (Nat × NodeList)
  deriving Repr

/-- The state right after `__init__`: ignore-first-load set, no previous
capture, no previous URL, empty line edit, and a `START` line already in
the trace.  The capture directory may hold files written by others. -/
def initState (files : List (Nat × NodeList)) : St :=
  { ignoreFirstLoad := true
    lastHtml := none
    previousUrl := none
    normalUrl := none
    normalUrlType := .normal
    hoverUrl := none
    urltype := none
    urlText := ""
    log := [.start]
    files := files }

/-- `add_log`: append one entry to the trace (the widget is always started
when the modelled handlers run, so the start guard never fires). -/
def add_log (e : LogEntry) (st : St) : St :=
  { st with log := st.log ++ [e] }

/-- The capture ids already present in the directory. -/
def keys (files : List (Nat × NodeList)) : List Nat :=
  files.map Prod.fst

/-- The `while os.path.exists(...)` probing loop of `dump_html`, advancing
the candidate id by one as long as a file with that id exists.  The fuel
`|keys|+1` of `probe` always suffices: the loop inspects pairwise distinct
ids, so it cannot take more than `|keys|` successful probes. -/
def probeGo : Nat → List Nat → Nat → Nat
  | 0, _, id => id
  | fuel + 1, ks, id => if id ∈ ks then probeGo fuel ks (id + 1) else id

/-- The capture id `dump_html` selects: the first id from 0 upward for
which no file exists. -/
def probe (ks : List Nat) : Nat :=
  probeGo (ks.length + 1) ks 0

/-- The `RANK` entries `getGoogleRanking(html)` appends: none when `html`
is `None` (the early return) or when the scraping loop raises, and one
entry with the found rank, the total and the page label otherwise. -/
def rankEntries (prev : Option String) (html : Option NodeList) : List LogEntry :=
  match html with
  | none => []
  | some d =>
      match getGoogleRanking prev d with
      | .ok (f, t, p) => [.rank f t p]
      | .error _ => []

/-- `dump_html(html)`: probe for the first free capture id, write the
document there, log a `LOAD_FINISHED` line with the capture name and the
current line-edit text, run `getGoogleRanking` on the *previous* capture,
and only then replace the stored previous capture with the new document.
A raised exception is returned as a second component; it skips the `RANK`
line and the `last_html` update but not the effects already performed. -/
def dump_html (html : NodeList) (st : St) : St × Option PyErr :=
  let id := probe (keys st.files)
  let st1 := { st with files := st.files ++ [(id, html)] }
  let st2 := add_log (.loadFinished id st.urlText) st1
  match st.lastHtml with
  | none => ({ st2 with lastHtml := some html }, none)
  | some d =>
      match getGoogleRanking st.previousUrl d with
      | .ok (f, t, p) =>
          ({ (add_log (.rank f t p) st2) with lastHtml := some html }, none)
      | .error e => (st2, some e)

/-- `_update_url`: copy the normal URL (or the empty string) into the line
edit and the url type, then, whenever the displayed text differs from
`previous_url` (initially `None`, which differs from every string), record
it as the new `previous_url` and log a `URL_CHANGED` line. -/
def updateUrl (st : St) : St :=
  let newText := match st.normalUrl with
    | some u => u
    | none => ""
  let newType := match st.normalUrl with
    | some _ => st.normalUrlType
    | none => UrlType.normal
  let st1 := { st with urlText := newText, urltype := some newType }
  if some newText = st1.previousUrl then st1
  else add_log (.urlChanged newText) { st1 with previousUrl := some newText }

/-- `on_set_url`: `None` clears the normal URL, an invalid `QUrl` shows
the literal `"Invalid URL!"`, a valid one shows its safe display string;
the type returns to `normal` and the display is refreshed. -/
def on_set_url (u : UrlArg) (st : St) : St :=
  let nu := match u with
    | .null => none
    | .invalid _ => some "Invalid URL!"
    | .valid d => some d
  updateUrl { st with normalUrl := nu, normalUrlType := .normal }

/-- `on_tab_changed`: re-set the URL from the newly current tab. -/
def on_tab_changed (u : UrlArg) (st : St) : St :=
  on_set_url u st

/-- `on_load_status_changed`: the four colored statuses map to the url
type of the same name, anything else falls back to `normal`; the display
is refreshed. -/
def on_load_status_changed (s : LoadStatus) (st : St) : St :=
  let t := match s with
    | .success => UrlType.success
    | .success_https => UrlType.success_https
    | .error => UrlType.error
    | .warn => UrlType.warn
    | .other => UrlType.normal
  updateUrl { st with normalUrlType := t }

/-- `on_load_started`: the very first call only clears the
`ignore_first_load` flag; every later call logs a `LOAD STARTED` line. -/
def on_load_started (st : St) : St :=
  if st.ignoreFirstLoad then { st with ignoreFirstLoad := false }
  else add_log .loadStarted st

/-- `set_hover_url(link)`: log the hover, then store the hover URL (its
safe display string when the link is a valid `QUrl`, an
`"(invalid URL!) "`-prefixed marker otherwise), or clear it when the link
is empty.  Validity and display string of a `QUrl` are host behaviour and
are taken as inputs.  Nothing else of the state is touched. -/
def set_hover_url (link : String) (valid : Bool) (display : String) (st : St) : St :=
  let st1 := add_log (.linkHovered link) st
  if link ≠ "" then
    if valid then { st1 with hoverUrl := some display }
    else { st1 with hoverUrl := some ("(invalid URL!) " ++ link) }
  else
    { st1 with hoverUrl := none }

/-- `on_press_enter`: log the entered text, resolve it to a URL and hand
that URL to the host's `load_url` (returned as the second component). -/
def on_press_enter (st : St) : St × String :=
  (add_log (.saisie st.urlText) st, resolveAddress st.urlText)

/-- `on_request_search`: log that the search box was shown. -/
def on_request_search (st : St) : St :=
  add_log .afficheRecherche st

/-- `on_search`: log and run the search when the box text is non-empty. -/
def on_search (txt : String) (st : St) : St :=
  if txt ≠ "" then add_log (.recherche txt) st else st

/-- `on_search_next`: log when the box text is non-empty. -/
def on_search_next (txt : String) (st : St) : St :=
  if txt ≠ "" then add_log (.rechercheSuivant txt) st else st

/-- `on_search_previous`: log when the box text is non-empty. -/
def on_search_previous (txt : String) (st : St) : St :=
  if txt ≠ "" then add_log (.recherchePrecedent txt) st else st

/-- An external stimulus delivered to the widget by the host: each
constructor corresponds to one slot or callback of the module.  The
search events carry the current content of the search box. -/
inductive Event where
  | tabChanged (u : UrlArg)
  | setUrl (u : UrlArg)
  | loadStatus (s : LoadStatus)
  | loadStarted
  | loadFinished (html : NodeList)
  | hover (link : String) (valid : Bool) (display : String)
  | pressEnter
  | requestSearch
  | search (txt : String)
  | searchNext (txt : String)
  | searchPrevious (txt : String)

/-- Dispatch of one event to its handler (the GUI loop runs handlers to
completion one at a time, so a trace is just a fold). -/
def step (e : Event) (st : St) : St :=
  match e with
  | .tabChanged u => on_tab_changed u st
  | .setUrl u => on_set_url u st
  | .loadStatus s => on_load_status_changed s st
  | .loadStarted => on_load_started st
  | .loadFinished h => (dump_html h st).1
  | .hover l v d => set_hover_url l v d st
  | .pressEnter => (on_press_enter st).1
  | .requestSearch => on_request_search st
  | .search t => on_search t st
  | .searchNext t => on_search_next t st
  | .searchPrevious t => on_search_previous t st

/-- The state reached from a fresh widget (over a capture directory with
initial content `files`) after a sequence of events. -/
def runEvents (es : List Event) (files : List (Nat × NodeList)) : St :=
  es.foldl (fun s e => step e s) (initState files)

/-- The payload of the most recent `URL_CHANGED` entry of a trace, if
any. -/
def lastUrlChanged (log : List LogEntry) : Option String :=
  log.foldl (fun acc e =>
    match e with
    | .urlChanged s => some s
    | _ => acc) none

/-- The capture ids recorded in `LOAD_FINISHED` lines of a trace, in
order. -/
def capturedIds (log : List LogEntry) : List Nat :=
  log.filterMap (fun e =>
    match e with
    | .loadFinished id _ => some id
    | _ => none)

/-- A well-formed search-result block for concrete tests: a `div` holding
a hyperlink to `href` whose anchor contains the result heading. -/
def exampleBlock (href : String) : Node :=
  .elem "div" [] (.cons (.elem "a" [("href", href)]
    (.cons (.elem "h3" [("class", "LC20lb")] (.cons (.text "t") .nil)) .nil)) .nil)

/-- A synthetic results document with three well-formed result blocks. -/
def doc3 : NodeList :=
  .cons (exampleBlock "https://one.example/a")
    (.cons (exampleBlock "https://two.example/b")
      (.cons (exampleBlock "https://three.example/c") .nil))

/-- A document whose only result heading sits at top level, with no `div`
ancestor at all. -/
def docBare : NodeList :=
  .cons (.elem "h3" [("class", "LC20lb")] .nil) .nil

/-- A document whose result heading sits in a `div` block that contains no
hyperlink. -/
def docNoLink : NodeList :=
  .cons (.elem "div" [] (.cons (.elem "h3" [("class", "LC20lb")] .nil) .nil)) .nil

/-- Monotonicity of `filter` length under a pointwise implication between
the predicates. -/
lemma length_filter_le_of_imp (p q : Nat → Bool) (l : List Nat)
    (h : ∀ x ∈ l, p x = true → q x = true) :
    (l.filter p).length ≤ (l.filter q).length := by
  induction l with
  | nil => simp
  | cons a t ih =>
      have ht : ∀ x ∈ t, p x = true → q x = true := fun x hx => h x (List.mem_cons_of_mem a hx)
      cases hpa : p a <;> cases hqa : q a <;>
        simp [List.filter_cons, hpa, hqa]
      · exact ih ht
      · exact Nat.le_succ_of_le (ih ht)
      · exact absurd (h a (List.mem_cons_self a t) hpa) (by simp [hqa])
      · exact ih ht


/-- Probing past an id that is present strictly shrinks the set of present
ids not yet passed. -/
lemma filter_ge_succ_lt (ks : List Nat) (id : Nat) (hid : id ∈ ks) :
    (ks.filter (fun j => id + 1 ≤ j)).length < (ks.filter (fun j => id ≤ j)).length := by
  induction ks with
  | nil => cases hid
  | cons a t ih =>
      have hmono : ∀ x ∈ t, decide (id + 1 ≤ x) = true → decide (id ≤ x) = true := by
        intro x _ hx
        simp only [decide_eq_true_eq] at *
        omega
      rcases List.mem_cons.mp hid with rfl | hmem
      · have h1 : (decide (id + 1 ≤ id)) = false := by simp
        have h2 : (decide (id ≤ id)) = true := by simp
        simp only [List.filter_cons, h1, h2, if_true, if_false, List.length_cons]
        exact Nat.lt_succ_of_le (length_filter_le_of_imp _ _ t hmono)
      · have ht := ih hmem
        by_cases h1 : id + 1 ≤ a <;> by_cases h2 : id ≤ a <;>
          (try simp [List.filter_cons, h1, h2]) <;> omega

/-- The probing loop, given enough fuel, lands on an id that is free, and
every id it skipped on the way was taken. -/
lemma probeGo_spec (ks : List Nat) :
    ∀ (fuel : Nat) (id : Nat), (ks.filter (fun j => id ≤ j)).length < fuel →
    probeGo fuel ks id ∉ ks ∧ ∀ j, id ≤ j → j < probeGo fuel ks id → j ∈ ks := by
  intro fuel
  induction fuel with
  | zero => intro id h; omega
  | succ f ih =>
      intro id h
      by_cases hmem : id ∈ ks
      · have hlt := filter_ge_succ_lt ks id hmem
        have hrec := ih (id + 1) (by omega)
        have hgo : probeGo (f + 1) ks id = probeGo f ks (id + 1) := by
          simp [probeGo, hmem]
        refine ⟨by rw [hgo]; exact hrec.1, ?_⟩
        intro j hj hlt2
        rw [hgo] at hlt2
        rcases Nat.eq_or_lt_of_le hj with rfl | hjgt
        · exact hmem
        · exact hrec.2 j (by omega) hlt2
      · have hgo : probeGo (f + 1) ks id = id := by simp [probeGo, hmem]
        rw [hgo]
        exact ⟨hmem, fun j hj hlt2 => absurd (lt_of_le_of_lt hj hlt2) (lt_irrefl id)⟩

/-- The id `dump_html` picks does not collide with any existing file, and
every smaller id is taken: it is the smallest free id. -/
lemma probe_spec (ks : List Nat) :
    probe ks ∉ ks ∧ ∀ j < probe ks, j ∈ ks := by
  have hfil : ks.filter (fun j => 0 ≤ j) = ks := by
    apply List.filter_eq_self.mpr
    intro a _
    simp
  have hlen : (ks.filter (fun j => 0 ≤ j)).length < ks.length + 1 := by
    rw [hfil]; omega
  obtain ⟨h1, h2⟩ := probeGo_spec ks (ks.length + 1) 0 hlen
  exact ⟨h1, fun j hj => h2 j (Nat.zero_le j) hj⟩

/-- When the taken ids are exactly those below `n`, the probe returns `n`. -/
lemma probe_eq_of_iff (ks : List Nat) (n : Nat) (h : ∀ j, j ∈ ks ↔ j < n) :
    probe ks = n := by
  obtain ⟨h1, h2⟩ := probe_spec ks
  rcases Nat.lt_trichotomy (probe ks) n with hl | he | hg
  · exact absurd ((h _).mpr hl) h1
  · exact he
  · exact absurd ((h n).mp (h2 n hg)) (lt_irrefl n)

/-- The pure content of the heading-scan loop: fold the source's `found` /
`rank` counters over the list of inspected link addresses, recording the
counter on every substring match. -/
def lastMatchAux (p : String) : List String → Int → Nat → Int
  | [], fnd, _ => fnd
  | h :: t, fnd, rank =>
      lastMatchAux p t (if isSubstr p h then (rank : Int) else fnd) (rank + 1)

/-- When no inspected address matches, the fold keeps its initial value. -/
lemma lastMatchAux_of_none (p : String) (l : List String) :
    ∀ (fnd : Int) (rank : Nat),
      (∀ j (hj : j < l.length), isSubstr p (l.get ⟨j, hj⟩) = false) →
      lastMatchAux p l fnd rank = fnd := by
  induction l with
  | nil => intro fnd rank _; rfl
  | cons h t ih =>
      intro fnd rank hno
      have h0 : isSubstr p h = false := hno 0 (by simp)
      have ht : ∀ j (hj : j < t.length), isSubstr p (t.get ⟨j, hj⟩) = false := by
        intro j hj
        exact hno (j + 1) (by simp only [List.length_cons]; omega)
      simp only [lastMatchAux, h0, Bool.false_eq_true, if_false]
      exact ih fnd (rank + 1) ht

/-- When every inspected address matches, the fold records the counter of
the last one. -/
lemma lastMatchAux_of_all (p : String) (l : List String) (hne : l ≠ []) :
    ∀ (fnd : Int) (rank : Nat),
      (∀ j (hj : j < l.length), isSubstr p (l.get ⟨j, hj⟩) = true) →
      lastMatchAux p l fnd rank = (rank : Int) + l.length - 1 := by
  induction l with
  | nil => cases hne rfl
  | cons h t ih =>
      intro fnd rank hall
      have h0 : isSubstr p h = true := hall 0 (by simp)
      have htall : ∀ j (hj : j < t.length), isSubstr p (t.get ⟨j, hj⟩) = true := by
        intro j hj
        exact hall (j + 1) (by simp only [List.length_cons]; omega)
      by_cases htn : t = []
      · subst htn
        simp only [lastMatchAux, h0, if_true, List.length_cons, List.length_nil]
        push_cast
        ring
      · simp only [lastMatchAux, h0, if_true]
        rw [ih htn (rank : Int) (rank + 1) htall]
        simp only [List.length_cons]
        push_cast
        ring

/-- The fold records the counter of the last matching address: if position
`i` (0-based) matches and nothing after it does, the result is `rank + i`. -/
lemma lastMatchAux_last (p : String) (l : List String) :
    ∀ (fnd : Int) (rank : Nat) (i : Nat) (hi : i < l.length),
      isSubstr p (l.get ⟨i, hi⟩) = true →
      (∀ j (hj : j < l.length), i < j → isSubstr p (l.get ⟨j, hj⟩) = false) →
      lastMatchAux p l fnd rank = (rank : Int) + i := by
  induction l with
  | nil => intro _ _ i hi; cases Nat.not_lt_zero i hi
  | cons h t ih =>
      intro fnd rank i hi hmatch hafter
      cases i with
      | zero =>
          have h0 : isSubstr p h = true := hmatch
          have hnone : ∀ j (hj : j < t.length), isSubstr p (t.get ⟨j, hj⟩) = false := by
            intro j hj
            exact hafter (j + 1) (by simp only [List.length_cons]; omega) (Nat.succ_pos j)
          simp only [lastMatchAux, h0, if_true]
          rw [lastMatchAux_of_none p t (rank : Int) (rank + 1) hnone]
          simp
      | succ i' =>
          have hi' : i' < t.length := by
            simp only [List.length_cons] at hi
            omega
          have hm' : isSubstr p (t.get ⟨i', hi'⟩) = true := hmatch
          have ha' : ∀ j (hj : j < t.length), i' < j → isSubstr p (t.get ⟨j, hj⟩) = false := by
            intro j hj hja
            exact hafter (j + 1) (by simp only [List.length_cons]; omega) (by omega)
          simp only [lastMatchAux]
          rw [ih _ (rank + 1) i' hi' hm' ha']
          push_cast
          ring

/-- A `filterMap` whose function succeeds everywhere keeps the length. -/
lemma length_filterMap_of_all {α β : Type} (f : α → Option β) (l : List α)
    (h : ∀ e ∈ l, (f e).isSome = true) : (l.filterMap f).length = l.length := by
  induction l with
  | nil => rfl
  | cons e t ih =>
      cases hfe : f e with
      | none =>
          have := h e (List.mem_cons_self e t)
          rw [hfe] at this
          cases this
      | some b =>
          have ht : ∀ e' ∈ t, (f e').isSome = true :=
            fun e' he' => h e' (List.mem_cons_of_mem e he')
          simp [List.filterMap_cons, hfe, ih ht]

/-- Under the guarded well-formedness (only headings that have an
enclosing block must find an addressed first hyperlink), the number of
inspected addresses equals the number of headings that have a block. -/
lemma length_filterMap_headingHref (hs : List (Node × Option Node))
    (hwf : ∀ e ∈ hs, e.2.isSome = true → (headingHref e).isSome = true) :
    (hs.filterMap headingHref).length
      = (hs.filter (fun e => e.2.isSome)).length := by
  induction hs with
  | nil => rfl
  | cons e t ih =>
      have hwt : ∀ e' ∈ t, e'.2.isSome = true → (headingHref e').isSome = true :=
        fun e' he' => hwf e' (List.mem_cons_of_mem e he')
      cases he2 : e.2 with
      | none =>
          have hnone : headingHref e = none := by
            simp [headingHref, blockFirstLink, he2]
          simp [List.filterMap_cons, hnone, List.filter_cons, he2, ih hwt]
      | some pd =>
          have hsome := hwf e (List.mem_cons_self e t) (by rw [he2]; rfl)
          cases hhe : headingHref e with
          | none => rw [hhe] at hsome; cases hsome
          | some href =>
              simp [List.filterMap_cons, hhe, List.filter_cons, he2, ih hwt]

/-- A heading with no enclosing `div` contributes no inspected address. -/
lemma headingHref_of_none (e : Node × Option Node) (he : e.2 = none) :
    headingHref e = none := by
  simp [headingHref, blockFirstLink, he]

/-- Characterization of the scan loop on inputs where every heading that
has an enclosing block finds a first hyperlink with an address there: the
loop terminates normally, its `found` value is the `lastMatchAux` fold
over the inspected addresses, and its final counter has advanced once per
inspected address. -/
lemma scanResults_ok (p : String) (hs : List (Node × Option Node)) :
    (∀ e ∈ hs, e.2.isSome = true → (headingHref e).isSome = true) →
    ∀ (fnd : Int) (rank : Nat),
      scanResults (some p) hs fnd rank =
        .ok (lastMatchAux p (hs.filterMap headingHref) fnd rank,
             rank + (hs.filterMap headingHref).length) := by
  induction hs with
  | nil => intro _ fnd rank; simp [scanResults, lastMatchAux]
  | cons e t ih =>
      intro hwf fnd rank
      have hwt : ∀ e' ∈ t, e'.2.isSome = true → (headingHref e').isSome = true :=
        fun e' he' => hwf e' (List.mem_cons_of_mem e he')
      cases he2 : e.2 with
      | none =>
          have hnone : headingHref e = none := headingHref_of_none e he2
          simp only [scanResults, he2, List.filterMap_cons, hnone]
          exact ih hwt fnd rank
      | some pd =>
          have hsome := hwf e (List.mem_cons_self e t) (by rw [he2]; rfl)
          rw [headingHref, blockFirstLink, he2] at hsome
          simp only [Option.some_bind] at hsome
          cases hh : (allIn isAnchor (childrenOf pd)).head? with
          | none => rw [hh] at hsome; cases hsome
          | some l0 =>
              rw [hh] at hsome
              simp only [Option.some_bind] at hsome
              cases ha : attrGet l0 "href" with
              | none => rw [ha] at hsome; cases hsome
              | some href =>
                  have hhe : headingHref e = some href := by
                    rw [headingHref, blockFirstLink, he2]
                    simp only [Option.some_bind, hh, ha]
                  simp only [scanResults, he2, hh, ha]
                  rw [ih hwt]
                  simp only [List.filterMap_cons, hhe, lastMatchAux, List.length_cons]
                  rw [Except.ok.injEq, Prod.mk.injEq]
                  exact ⟨rfl, by omega⟩

/-- The ranking extractor, on a document whose headings-with-blocks all
yield an address, returns normally with the last-match fold as found-rank
and one counted result per inspected address. -/
lemma getGoogleRanking_ok (p : String) (doc : NodeList)
    (hwf : ∀ e ∈ headingsInList none doc,
        e.2.isSome = true → (headingHref e).isSome = true) :
    getGoogleRanking (some p) doc =
      .ok (lastMatchAux p ((headingsInList none doc).filterMap headingHref) (-1) 1,
           ((headingsInList none doc).filterMap headingHref).length,
           pageLabel doc) := by
  rw [getGoogleRanking, scanResults_ok p _ hwf (-1) 1]
  simp [Nat.add_sub_cancel_left]

/-- The empty string is a substring of every string. -/
lemma isSubstr_empty (s : String) : isSubstr "" s = true := by
  simp [isSubstr]

/-- Every string is a substring of itself. -/
lemma isSubstr_refl (s : String) : isSubstr s s = true := by
  simp only [isSubstr, decide_eq_true_eq]
  exact ⟨[], [], by simp⟩

/-- A substring of `h` is a substring of `pre ++ h`. -/
lemma isSubstr_append_right (n pre h : String) (hs : isSubstr n h = true) :
    isSubstr n (pre ++ h) = true := by
  simp only [isSubstr, decide_eq_true_eq, String.data_append] at *
  obtain ⟨s, t, hst⟩ := hs
  refine ⟨pre.data ++ s, t, ?_⟩
  rw [← hst]
  simp [List.append_assoc]

/-- A substring of `h` is a substring of `h ++ suf`. -/
lemma isSubstr_append_left (n h suf : String) (hs : isSubstr n h = true) :
    isSubstr n (h ++ suf) = true := by
  simp only [isSubstr, decide_eq_true_eq, String.data_append] at *
  obtain ⟨s, t, hst⟩ := hs
  refine ⟨s, t ++ suf.data, ?_⟩
  rw [← hst]
  simp [List.append_assoc]

/-- The text `_update_url` writes into the line edit: the normal URL when
there is one, the empty string otherwise. -/
def displayText (st : St) : String :=
  match st.normalUrl with
  | some u => u
  | none => ""

/-- The url type `_update_url` writes: the stored normal-url type when a
normal URL is present, `normal` otherwise. -/
def displayType (st : St) : UrlType :=
  match st.normalUrl with
  | some _ => st.normalUrlType
  | none => UrlType.normal

/-- Closed form of `_update_url`: the line edit always shows
`displayText`; when that text equals the recorded `previous_url` nothing
else happens, otherwise `previous_url` is updated to it and a single
`URL_CHANGED` line is appended. -/
lemma updateUrl_eq (st : St) :
    updateUrl st =
      (if some (displayText st) = st.previousUrl then
        { st with urlText := displayText st, urltype := some (displayType st) }
      else
        { st with urlText := displayText st, urltype := some (displayType st),
                  previousUrl := some (displayText st),
                  log := st.log ++ [.urlChanged (displayText st)] }) := by
  cases hnu : st.normalUrl <;>
    simp only [updateUrl, displayText, displayType, hnu, add_log]

/-- The line edit after `_update_url`. -/
lemma updateUrl_urlText (st : St) : (updateUrl st).urlText = displayText st := by
  rw [updateUrl_eq]
  split <;> rfl

/-- After `_update_url`, `previous_url` records exactly the displayed
text. -/
lemma updateUrl_previousUrl (st : St) :
    (updateUrl st).previousUrl = some (displayText st) := by
  rw [updateUrl_eq]
  split
  · rename_i hcond
    exact hcond.symm
  · rfl

/-- The trace after `_update_url`: one `URL_CHANGED` line exactly when
the displayed text differs from the recorded `previous_url`. -/
lemma updateUrl_log (st : St) :
    (updateUrl st).log = st.log ++
      (if some (displayText st) = st.previousUrl then []
       else [.urlChanged (displayText st)]) := by
  rw [updateUrl_eq]
  split <;> simp

/-- `_update_url` does not touch the stored previous capture. -/
lemma updateUrl_lastHtml (st : St) : (updateUrl st).lastHtml = st.lastHtml := by
  rw [updateUrl_eq]
  split <;> rfl

/-- `_update_url` does not touch the capture directory. -/
lemma updateUrl_files (st : St) : (updateUrl st).files = st.files := by
  rw [updateUrl_eq]
  split <;> rfl

/-- `_update_url` does not touch the first-load flag. -/
lemma updateUrl_ignoreFirstLoad (st : St) :
    (updateUrl st).ignoreFirstLoad = st.ignoreFirstLoad := by
  rw [updateUrl_eq]
  split <;> rfl

/-- `_update_url` does not touch the normal URL. -/
lemma updateUrl_normalUrl (st : St) : (updateUrl st).normalUrl = st.normalUrl := by
  rw [updateUrl_eq]
  split <;> rfl

/-- Complete characterization of `dump_html`: the capture is written to
the probed id, a `LOAD_FINISHED` line is logged, then the `RANK` line (if
any) for the *previous* capture against the current `previous_url`, and
the stored previous capture becomes the new document exactly when no
exception was raised. -/
lemma dump_html_spec (h : NodeList) (st : St) :
    ((dump_html h st).1).log = st.log ++
      [.loadFinished (probe (keys st.files)) st.urlText] ++
      rankEntries st.previousUrl st.lastHtml
  ∧ ((dump_html h st).1).files = st.files ++ [(probe (keys st.files), h)]
  ∧ ((dump_html h st).1).lastHtml =
      (if (dump_html h st).2 = none then some h else st.lastHtml)
  ∧ ((dump_html h st).1).previousUrl = st.previousUrl
  ∧ ((dump_html h st).1).urlText = st.urlText
  ∧ ((dump_html h st).1).ignoreFirstLoad = st.ignoreFirstLoad
  ∧ ((dump_html h st).1).normalUrl = st.normalUrl := by
  cases hl : st.lastHtml with
  | none => simp [dump_html, rankEntries, add_log, hl]
  | some d =>
      cases hr : getGoogleRanking st.previousUrl d with
      | ok v =>
          obtain ⟨f, tt, pg⟩ := v
          simp [dump_html, rankEntries, add_log, hl, hr]
      | error e =>
          simp [dump_html, rankEntries, add_log, hl, hr]

/-- Folding the most-recent-`URL_CHANGED` scan over an appended trace. -/
lemma lastUrlChanged_append (l1 l2 : List LogEntry) :
    lastUrlChanged (l1 ++ l2) =
      (match lastUrlChanged l2 with
       | some s => some s
       | none => lastUrlChanged l1) := by
  have key : ∀ (l : List LogEntry) (acc : Option String),
      l.foldl (fun acc e => match e with | .urlChanged s => some s | _ => acc) acc =
        (match l.foldl (fun acc e => match e with | .urlChanged s => some s | _ => acc) none with
         | some s => some s
         | none => acc) := by
    intro l
    induction l with
    | nil => intro acc; rfl
    | cons e t ih =>
        intro acc
        simp only [List.foldl_cons]
        rw [ih, ih (match e with | .urlChanged s => some s | _ => none)]
        cases hfl : t.foldl (fun acc e => match e with | .urlChanged s => some s | _ => acc) none <;>
          cases e <;> simp
  simp only [lastUrlChanged, List.foldl_append]
  exact key l2 _

/-- The value of the scan on the one-entry traces the handlers append. -/
lemma lastUrlChanged_single (e : LogEntry) :
    lastUrlChanged [e] = (match e with | .urlChanged s => some s | _ => none) := by
  cases e <;> rfl

/-- A `RANK` line is never a `URL_CHANGED` line. -/
lemma lastUrlChanged_rankEntries (p : Option String) (h : Option NodeList) :
    lastUrlChanged (rankEntries p h) = none := by
  cases h with
  | none => rfl
  | some d =>
      cases hr : getGoogleRanking p d with
      | ok v => obtain ⟨f, t, pg⟩ := v; simp [rankEntries, hr, lastUrlChanged]
      | error e => simp [rankEntries, hr, lastUrlChanged]

/-- No `RANK` line records a capture id. -/
lemma capturedIds_rankEntries (p : Option String) (h : Option NodeList) :
    capturedIds (rankEntries p h) = [] := by
  cases h with
  | none => rfl
  | some d =>
      cases hr : getGoogleRanking p d with
      | ok v => obtain ⟨f, t, pg⟩ := v; simp [rankEntries, hr, capturedIds]
      | error e => simp [rankEntries, hr, capturedIds]

/-- Captured ids of an appended trace. -/
lemma capturedIds_append (l1 l2 : List LogEntry) :
    capturedIds (l1 ++ l2) = capturedIds l1 ++ capturedIds l2 :=
  List.filterMap_append l1 l2 _

/-- Ids present after adding one file. -/
lemma keys_append (f1 f2 : List (Nat × NodeList)) :
    keys (f1 ++ f2) = keys f1 ++ keys f2 :=
  List.map_append Prod.fst f1 f2

/-- `_update_url` preserves the invariant that `previous_url` equals the
most recent `URL_CHANGED` payload of the trace. -/
lemma updateUrl_inv (st : St) (hst : st.previousUrl = lastUrlChanged st.log) :
    (updateUrl st).previousUrl = lastUrlChanged (updateUrl st).log := by
  rw [updateUrl_previousUrl, updateUrl_log, lastUrlChanged_append]
  by_cases hcond : some (displayText st) = st.previousUrl
  · rw [if_pos hcond]
    simpa using hcond.trans hst
  · rw [if_neg hcond]
    simp [lastUrlChanged_single]

/-- Every event handler preserves the invariant that `previous_url`
equals the most recent `URL_CHANGED` payload of the trace. -/
lemma step_inv (e : Event) (st : St) (hst : st.previousUrl = lastUrlChanged st.log) :
    (step e st).previousUrl = lastUrlChanged (step e st).log := by
  cases e with
  | tabChanged u => exact updateUrl_inv _ hst
  | setUrl u => exact updateUrl_inv _ hst
  | loadStatus s => exact updateUrl_inv _ hst
  | loadStarted =>
      by_cases hf : st.ignoreFirstLoad = true
      · simpa [step, on_load_started, hf] using hst
      · simp only [step, on_load_started, hf, if_false, add_log]
        simp [lastUrlChanged_append, lastUrlChanged_single]
        exact hst
  | loadFinished h =>
      obtain ⟨hlog, _, _, hprev, _⟩ := dump_html_spec h st
      simp only [step]
      rw [hprev, hlog, lastUrlChanged_append, lastUrlChanged_rankEntries,
        lastUrlChanged_append, lastUrlChanged_single]
      simpa using hst
  | hover l v d =>
      simp only [step, set_hover_url, add_log]
      split
      · split <;>
          · simp [lastUrlChanged_append, lastUrlChanged_single]
            exact hst
      · simp [lastUrlChanged_append, lastUrlChanged_single]
        exact hst
  | pressEnter =>
      simp only [step, on_press_enter, add_log]
      simp [lastUrlChanged_append, lastUrlChanged_single]
      exact hst
  | requestSearch =>
      simp only [step, on_request_search, add_log]
      simp [lastUrlChanged_append, lastUrlChanged_single]
      exact hst
  | search t =>
      simp only [step, on_search]
      split
      · simp [add_log, lastUrlChanged_append, lastUrlChanged_single]
        exact hst
      · exact hst
  | searchNext t =>
      simp only [step, on_search_next]
      split
      · simp [add_log, lastUrlChanged_append, lastUrlChanged_single]
        exact hst
      · exact hst
  | searchPrevious t =>
      simp only [step, on_search_previous]
      split
      · simp [add_log, lastUrlChanged_append, lastUrlChanged_single]
        exact hst
      · exact hst

/-- An invariant preserved by every handler holds along every event
trace. -/
lemma foldl_step_inv (P : St → Prop) (hP : ∀ e st, P st → P (step e st)) :
    ∀ (es : List Event) (st : St), P st → P (es.foldl (fun s e => step e s) st) := by
  intro es
  induction es with
  | nil => intro st h; exact h
  | cons e t ih => intro st h; exact ih _ (hP e st h)

/-- A run of successive `dump_html` calls (one per completed load). -/
def dumps (hs : List NodeList) (st : St) : St :=
  hs.foldl (fun s h => (dump_html h s).1) st

/-- Running the archiver over a directory whose taken ids are exactly
`0..k-1` produces the ids `k, k+1, ...` in order, and leaves the taken
ids gap-free again. -/
lemma dumps_ids (hs : List NodeList) :
    ∀ (st : St) (k : Nat), (∀ j, j ∈ keys st.files ↔ j < k) →
      capturedIds (dumps hs st).log = capturedIds st.log ++ List.range' k hs.length
      ∧ (∀ j, j ∈ keys (dumps hs st).files ↔ j < k + hs.length) := by
  induction hs with
  | nil =>
      intro st k h
      exact ⟨by simp [dumps], by simpa using h⟩
  | cons d t ih =>
      intro st k h
      have hpk : probe (keys st.files) = k := probe_eq_of_iff _ _ h
      obtain ⟨hlog, hfiles, _⟩ := dump_html_spec d st
      have hkeys : keys ((dump_html d st).1).files = keys st.files ++ [k] := by
        rw [hfiles, keys_append, hpk]
        rfl
      have hiff : ∀ j, j ∈ keys ((dump_html d st).1).files ↔ j < k + 1 := by
        intro j
        rw [hkeys, List.mem_append, List.mem_singleton, h j]
        omega
      have hci : capturedIds ((dump_html d st).1).log = capturedIds st.log ++ [k] := by
        rw [hlog, capturedIds_append, capturedIds_append, capturedIds_rankEntries, hpk]
        simp [capturedIds]
      have hrec := ih ((dump_html d st).1) (k + 1) hiff
      have hd : dumps (d :: t) st = dumps t ((dump_html d st).1) := rfl
      constructor
      · rw [hd, hrec.1, hci, List.length_cons, List.range'_succ]
        simp
      · intro j
        rw [hd, hrec.2 j, List.length_cons]
        omega

/-- The addresses the scan loop inspects: for each result heading that has
an enclosing `div` block, the `href` of the block's first hyperlink. -/
def inspectedHrefs (doc : NodeList) : List String :=
  (headingsInList none doc).filterMap headingHref

/-- Events delivering one completed page load per document. -/
lemma runEvents_dumps (hs : List NodeList) (files : List (Nat × NodeList)) :
    runEvents (hs.map Event.loadFinished) files = dumps hs (initState files) := by
  rw [runEvents, dumps, List.foldl_map]
  rfl

/-- C1, counterexample: on a document whose single result heading has no
enclosing `div` block, the heading is encountered but the counter is not
incremented — the extractor reports total 0, not the claimed total count
of headings encountered (1). -/
theorem C1_counterexample :
    (headingsInList none docBare).length = 1
    ∧ getGoogleRanking (some "x") docBare = .ok (-1, 0, "?") := by
  decide

/-- C1 (amended): provided the fragment is non-null and every result
heading that HAS an enclosing `div` block finds a first hyperlink with an
address there, the extractor returns normally even when other headings
lack a block entirely: the counter advances exactly once per heading with
a block (block-less headings are encountered but skipped uncounted, so
the reported total is the blocked-heading count, not the count of all
headings), the found-rank is the 1-based counter of the last matching
inspected address (`lastMatchAux`), `-1` when no inspected address
contains the fragment, and `i+1` when position `i` matches and no later
one does. -/
theorem C1_amended_ranking (p : String) (doc : NodeList)
    (hwf : ∀ e ∈ headingsInList none doc,
        e.2.isSome = true → (headingHref e).isSome = true) :
    getGoogleRanking (some p) doc =
      .ok (lastMatchAux p (inspectedHrefs doc) (-1) 1,
           (inspectedHrefs doc).length, pageLabel doc)
  ∧ (inspectedHrefs doc).length
      = ((headingsInList none doc).filter (fun e => e.2.isSome)).length
  ∧ ((∀ j (hj : j < (inspectedHrefs doc).length),
        isSubstr p ((inspectedHrefs doc).get ⟨j, hj⟩) = false) →
      lastMatchAux p (inspectedHrefs doc) (-1) 1 = -1)
  ∧ (∀ i (hi : i < (inspectedHrefs doc).length),
      isSubstr p ((inspectedHrefs doc).get ⟨i, hi⟩) = true →
      (∀ j (hj : j < (inspectedHrefs doc).length),
        i < j → isSubstr p ((inspectedHrefs doc).get ⟨j, hj⟩) = false) →
      lastMatchAux p (inspectedHrefs doc) (-1) 1 = (i : Int) + 1) := by
  refine ⟨?_, ?_, ?_, ?_⟩
  · exact getGoogleRanking_ok p doc hwf
  · exact length_filterMap_headingHref (headingsInList none doc) hwf
  · intro hno
    exact lastMatchAux_of_none p (inspectedHrefs doc) (-1) 1 hno
  · intro i hi hm hafter
    rw [lastMatchAux_last p (inspectedHrefs doc) (-1) 1 i hi hm hafter]
    push_cast
    ring

/-- A mixed document: a block-less result heading (skipped uncounted)
followed by one well-formed result block. -/
def docMixed : NodeList :=
  .cons (.elem "h3" [("class", "LC20lb")] .nil)
    (.cons (exampleBlock "https://one.example/a") .nil)

/-- C1, witness: on the synthetic three-result document where only the
second result's link contains the fragment, the extractor reports
found-rank 2 of total 3; on the mixed document with two headings of
which only one has a block, it reports found-rank 1 of total 1 (not 2). -/
theorem C1_witness :
    getGoogleRanking (some "two.example") doc3 = .ok (2, 3, "?")
    ∧ getGoogleRanking (some "one.example") docMixed = .ok (1, 1, "?")
    ∧ (headingsInList none docMixed).length = 2 := by
  refine ⟨?_, ?_, by decide⟩
  · have h := C1_amended_ranking "two.example" doc3 (by decide)
    rw [h.1]
    decide
  · have h := C1_amended_ranking "one.example" docMixed (by decide)
    rw [h.1]
    decide

/-- C2, counterexample: with a pre-existing external capture of id 1 (a
gap at 0), two sequential archiver calls produce ids 0 and 2, not the
claimed `0..N-1`. -/
theorem C2_counterexample :
    capturedIds (runEvents
        [Event.loadFinished NodeList.nil, Event.loadFinished docBare]
        [(1, NodeList.nil)]).log = [0, 2]
    ∧ capturedIds (runEvents
        [Event.loadFinished NodeList.nil, Event.loadFinished docBare]
        [(1, NodeList.nil)]).log ≠ List.range 2 := by
  decide

/-- C2 (amended): each archiver call probes linearly from 0 and picks the
smallest id with no existing file — it never overwrites an existing
same-day capture; when no same-day file pre-exists, N sequential calls
produce exactly the ids `0..N-1` in order (and from a gap-free directory
with ids `0..k-1`, the ids `k..k+N-1`); with gapped pre-existing files
the produced ids fill gaps and skip taken ids instead. -/
theorem C2_amended_archiver (files : List (Nat × NodeList)) (hs : List NodeList) :
    probe (keys files) ∉ keys files
  ∧ (∀ j < probe (keys files), j ∈ keys files)
  ∧ (keys files = [] →
      capturedIds (runEvents (hs.map Event.loadFinished) files).log =
        List.range hs.length)
  ∧ (∀ k, (∀ j, j ∈ keys files ↔ j < k) →
      capturedIds (runEvents (hs.map Event.loadFinished) files).log =
        List.range' k hs.length) := by
  obtain ⟨h1, h2⟩ := probe_spec (keys files)
  refine ⟨h1, h2, ?_, ?_⟩
  · intro hk
    have hiff : ∀ j, j ∈ keys ((initState files).files) ↔ j < 0 := by
      intro j
      show j ∈ keys files ↔ j < 0
      rw [hk]
      simp
    have hd := dumps_ids hs (initState files) 0 hiff
    rw [runEvents_dumps, hd.1, List.range_eq_range']
    rfl
  · intro k hk
    have hiff : ∀ j, j ∈ keys ((initState files).files) ↔ j < k := hk
    have hd := dumps_ids hs (initState files) k hiff
    rw [runEvents_dumps, hd.1]
    rfl

/-- C2, witness: from an empty capture directory, two sequential archiver
calls produce the ids 0 and 1 in order. -/
theorem C2_witness :
    capturedIds (runEvents
      [Event.loadFinished NodeList.nil, Event.loadFinished docBare] []).log = [0, 1] := by
  have h := C2_amended_archiver [] [NodeList.nil, docBare]
  have h3 := h.2.2.1 rfl
  rw [show [Event.loadFinished NodeList.nil, Event.loadFinished docBare]
        = List.map Event.loadFinished [NodeList.nil, docBare] from rfl, h3]
  decide

/-- C3, counterexample: the very first load-finished event after
construction does append a trace entry — the `LOAD_FINISHED` capture
line — contradicting the claim that it produces no log entry. -/
theorem C3_counterexample :
    ((dump_html NodeList.nil (initState [])).1).log = [.start, .loadFinished 0 ""]
    ∧ ((dump_html NodeList.nil (initState [])).1).log ≠ (initState []).log := by
  decide

/-- C3 (amended): the event suppressed exactly once as a startup artifact
is the first load-STARTED event (no `LOAD STARTED` line; later ones log
it); every load-finished event, the first included, appends a
`LOAD_FINISHED` line, and the first load-finished merely produces no
`RANK` line because no previous capture exists yet. -/
theorem C3_amended_suppression (files : List (Nat × NodeList)) (st : St) (h : NodeList) :
    (on_load_started (initState files)).log = (initState files).log
  ∧ (on_load_started (initState files)).ignoreFirstLoad = false
  ∧ (st.ignoreFirstLoad = false → (on_load_started st).log = st.log ++ [.loadStarted])
  ∧ (st.lastHtml = none →
      ((dump_html h st).1).log =
        st.log ++ [.loadFinished (probe (keys st.files)) st.urlText]) := by
  refine ⟨by simp [on_load_started, initState], by simp [on_load_started, initState], ?_, ?_⟩
  · intro hf
    simp [on_load_started, hf, add_log]
  · intro hl
    obtain ⟨hlog, _⟩ := dump_html_spec h st
    rw [hlog, hl]
    simp [rankEntries]

/-- C3, witness: the first load-started event logs nothing, the second
logs `LOAD STARTED`; the first load-finished logs its capture line and no
`RANK` line. -/
theorem C3_witness :
    (on_load_started (initState [])).log = [.start]
    ∧ (on_load_started (on_load_started (initState []))).log = [.start, .loadStarted]
    ∧ ((dump_html NodeList.nil (initState [])).1).log = [.start, .loadFinished 0 ""] := by
  have h1 := C3_amended_suppression [] (on_load_started (initState [])) NodeList.nil
  have h2 := C3_amended_suppression [] (initState []) NodeList.nil
  refine ⟨?_, ?_, ?_⟩
  · rw [h1.1]
    decide
  · rw [h1.2.2.1 (by decide)]
    decide
  · rw [h2.2.2.2 (by decide)]
    decide

/-- C4, counterexample: on a document whose result heading sits in a
`div` block containing no hyperlink, the extractor raises (`links[0]` on
an empty list, an `IndexError`) instead of degrading. -/
theorem C4_counterexample :
    getGoogleRanking (some "x") docNoLink = .error .indexError := by
  decide

/-- C4 (amended): provided the fragment is non-null and every result
heading that has an enclosing block finds a first hyperlink with an
address there, the extractor never raises; it returns a result carrying
the page label, which is the unknown marker `"?"` whenever no pagination
footer exists, and it degrades to the sentinel `-1` with total 0 on
documents with no result headings.  A heading whose block has no
hyperlink, a first hyperlink without address, or a null fragment raises
instead. -/
theorem C4_amended_degradation (p : String) (doc : NodeList)
    (hwf : ∀ e ∈ headingsInList none doc,
        e.2.isSome = true → (headingHref e).isSome = true) :
    (∃ f t, getGoogleRanking (some p) doc = .ok (f, t, pageLabel doc))
  ∧ (firstIn isFootDiv doc = none → pageLabel doc = "?")
  ∧ (headingsInList none doc = [] →
      getGoogleRanking (some p) doc = .ok (-1, 0, pageLabel doc)) := by
  refine ⟨⟨_, _, getGoogleRanking_ok p doc hwf⟩, ?_, ?_⟩
  · intro hf
    simp only [pageLabel, hf]
  · intro hh
    rw [getGoogleRanking_ok p doc hwf, hh]
    simp [lastMatchAux]

/-- C4, witness: a document with a single block-less heading and no
footer degrades to not-found with the unknown page label. -/
theorem C4_witness :
    (∃ f t, getGoogleRanking (some "q") docBare = .ok (f, t, pageLabel docBare))
    ∧ pageLabel docBare = "?" := by
  have h := C4_amended_degradation "q" docBare (by decide)
  exact ⟨h.1, h.2.1 (by decide)⟩

/-- C5, counterexample: with an empty target fragment the substring test
succeeds on every link (the empty string is a substring of everything),
so on the three-result document the extractor reports found-rank 3 — not
the claimed not-found sentinel. -/
theorem C5_counterexample :
    getGoogleRanking (some "") doc3 = .ok (3, 3, "?")
    ∧ getGoogleRanking (some "") doc3 ≠ .ok (-1, 3, "?") := by
  decide

/-- C5 (amended): an empty fragment matches every inspected link, so on a
document whose headings all have blocks with addressed first hyperlinks
the extractor returns the rank of the LAST counted heading (the total) —
the sentinel `-1` arises only when there are no headings; and a null
fragment does not return the sentinel either: it raises a `TypeError` as
soon as one heading with a block is inspected. -/
theorem C5_amended_empty_fragment (doc : NodeList)
    (hwf : ∀ e ∈ headingsInList none doc, (headingHref e).isSome = true) :
    getGoogleRanking (some "") doc =
      .ok ((if (headingsInList none doc).length = 0 then (-1 : Int)
            else ((headingsInList none doc).length : Int)),
           (headingsInList none doc).length, pageLabel doc)
  ∧ (headingsInList none doc ≠ [] →
      getGoogleRanking none doc = .error .typeError) := by
  have hwf' : ∀ e ∈ headingsInList none doc,
      e.2.isSome = true → (headingHref e).isSome = true := fun e he _ => hwf e he
  have hlen := length_filterMap_of_all headingHref (headingsInList none doc) hwf
  constructor
  · rw [getGoogleRanking_ok "" doc hwf']
    by_cases hnil : headingsInList none doc = []
    · simp [hnil, lastMatchAux]
    · have hlpos : (headingsInList none doc).length ≠ 0 :=
        fun hc => hnil (List.length_eq_zero.mp hc)
      have hne : (headingsInList none doc).filterMap headingHref ≠ [] := by
        intro hc
        apply hlpos
        rw [← hlen, hc]
        rfl
      have hall : ∀ j (hj : j < ((headingsInList none doc).filterMap headingHref).length),
          isSubstr "" (((headingsInList none doc).filterMap headingHref).get ⟨j, hj⟩) = true :=
        fun j hj => isSubstr_empty _
      rw [lastMatchAux_of_all "" _ hne (-1) 1 hall, hlen, if_neg hlpos]
      rw [Except.ok.injEq, Prod.mk.injEq]
      refine ⟨?_, rfl⟩
      push_cast
      ring
  · intro hne
    cases hhs : headingsInList none doc with
    | nil => exact absurd hhs hne
    | cons e t =>
        have hsome := hwf e (by rw [hhs]; exact List.mem_cons_self e t)
        rw [getGoogleRanking, hhs]
        cases he2 : e.2 with
        | none =>
            rw [headingHref_of_none e he2] at hsome
            cases hsome
        | some pd =>
            rw [headingHref, blockFirstLink, he2] at hsome
            simp only [Option.some_bind] at hsome
            cases hh : (allIn isAnchor (childrenOf pd)).head? with
            | none => rw [hh] at hsome; cases hsome
            | some l0 =>
                rw [hh] at hsome
                simp only [Option.some_bind] at hsome
                cases ha : attrGet l0 "href" with
                | none => rw [ha] at hsome; cases hsome
                | some href => simp [scanResults, he2, hh, ha]

/-- C5, witness: the empty fragment yields found-rank 3 of 3 on the
three-result document, and the null fragment raises there. -/
theorem C5_witness :
    getGoogleRanking (some "") doc3 = .ok (3, 3, "?")
    ∧ getGoogleRanking none doc3 = .error .typeError := by
  have h := C5_amended_empty_fragment doc3 (by decide)
  refine ⟨?_, h.2 (by decide)⟩
  rw [h.1]
  decide

/-- C6: on every completed load, `dump_html` first archives the newest
document under the probed fresh id (capture line in the trace first),
then runs the ranking scan over the *previous* cycle's stored document
with the current `previous_url` (at most one `RANK` line, appended after
the capture line), and only then replaces the stored document with the
newest one — exactly when no exception aborted the scan; a first load
(no stored document) yields no `RANK` line at all. -/
theorem C6_order (st : St) (h : NodeList) :
    ((dump_html h st).1).log = st.log ++
      [.loadFinished (probe (keys st.files)) st.urlText] ++
      rankEntries st.previousUrl st.lastHtml
  ∧ ((dump_html h st).1).files = st.files ++ [(probe (keys st.files), h)]
  ∧ ((dump_html h st).1).lastHtml =
      (if (dump_html h st).2 = none then some h else st.lastHtml)
  ∧ rankEntries st.previousUrl none = []
  ∧ (∀ files : List (Nat × NodeList), (initState files).lastHtml = none) := by
  obtain ⟨h1, h2, h3, _⟩ := dump_html_spec h st
  exact ⟨h1, h2, h3, rfl, fun _ => rfl⟩

/-- C7, counterexample: a display update that leaves the rendered text
unchanged (the line edit already shows the empty string) still logs a
`URL_CHANGED` line, because the deduplication compares against the
initially-null `previous_url`, not against the rendered text. -/
theorem C7_counterexample :
    (runEvents [Event.setUrl UrlArg.null] []).urlText = (initState []).urlText
    ∧ (runEvents [Event.setUrl UrlArg.null] []).log = [.start, .urlChanged ""]
    ∧ (runEvents [Event.setUrl UrlArg.null] []).log ≠ (initState []).log := by
  decide

/-- C7 (amended): `_update_url` appends exactly one `URL_CHANGED` line
when the new rendered text differs from the recorded `previous_url` and
none when they coincide; since `previous_url` starts as null (distinct
from every string), the very first update always logs, even with
unchanged rendered text; afterwards `previous_url` always equals the
rendered text, so deduplication against the displayed text holds from
the second update on. -/
theorem C7_amended_dedup (st : St) :
    (updateUrl st).urlText = displayText st
  ∧ (updateUrl st).previousUrl = some (displayText st)
  ∧ (updateUrl st).log = st.log ++
      (if some (displayText st) = st.previousUrl then []
       else [.urlChanged (displayText st)])
  ∧ (st.previousUrl = some st.urlText →
      (updateUrl st).log = st.log ++
        (if displayText st = st.urlText then []
         else [.urlChanged (displayText st)])) := by
  refine ⟨updateUrl_urlText st, updateUrl_previousUrl st, updateUrl_log st, ?_⟩
  intro hsteady
  rw [updateUrl_log st, hsteady]
  by_cases hc : displayText st = st.urlText
  · simp [hc]
  · simp [hc]

/-- C7, witness: in a steady state showing `previous_url = urlText = ""`,
an update to a new URL logs exactly one `URL_CHANGED` line with it. -/
theorem C7_witness :
    (updateUrl { initState [] with
        previousUrl := some "", normalUrl := some "http://a.example/" }).log
      = [.start, .urlChanged "http://a.example/"] := by
  have h := C7_amended_dedup { initState [] with
    previousUrl := some "", normalUrl := some "http://a.example/" }
  rw [h.2.2.2 (by decide)]
  decide

/-- C8, counterexample: the entered string `http://localhost` is already
scheme-prefixed, yet the resolver does not leave it unchanged — it has no
dot, so it becomes a search query. -/
theorem C8_counterexample :
    resolveAddress "http://localhost" = "http://www.google.com/search?q=http://localhost"
    ∧ resolveAddress "http://localhost" ≠ "http://localhost" := by
  decide

/-- C8 (amended): a string without a dot resolves to the search-query URL
(even if scheme-prefixed); a string with a dot and no occurrence of
`http://` or `https://` anywhere is prefixed with `http://`; a string
with a dot and a scheme marker occurring anywhere (not only as a prefix)
is left unchanged; and the resolution is idempotent on every input. -/
theorem C8_amended_resolution (u : String) :
    (isSubstr "." u = false →
      resolveAddress u = "http://www.google.com/search?q=" ++ u)
  ∧ (isSubstr "." u = true → isSubstr "http://" u = false →
      isSubstr "https://" u = false → resolveAddress u = "http://" ++ u)
  ∧ (isSubstr "." u = true →
      (isSubstr "http://" u = true ∨ isSubstr "https://" u = true) →
      resolveAddress u = u)
  ∧ resolveAddress (resolveAddress u) = resolveAddress u := by
  refine ⟨?_, ?_, ?_, ?_⟩
  · intro hdot
    simp [resolveAddress, hdot]
  · intro hdot hh hhs
    simp [resolveAddress, hdot, hh, hhs]
  · intro hdot hsch
    rcases hsch with hh | hhs
    · simp [resolveAddress, hdot, hh]
    · simp [resolveAddress, hdot, hhs]
  · by_cases hdot : isSubstr "." u = true
    · by_cases hh : isSubstr "http://" u = true
      · have hres : resolveAddress u = u := by simp [resolveAddress, hdot, hh]
        rw [hres, hres]
      · by_cases hhs : isSubstr "https://" u = true
        · have hres : resolveAddress u = u := by simp [resolveAddress, hdot, hhs]
          rw [hres, hres]
        · have hres : resolveAddress u = "http://" ++ u := by
            simp [resolveAddress, hdot, hh, hhs]
          rw [hres]
          have hd2 : isSubstr "." ("http://" ++ u) = true :=
            isSubstr_append_right "." "http://" u hdot
          have hh2 : isSubstr "http://" ("http://" ++ u) = true :=
            isSubstr_append_left "http://" "http://" u (isSubstr_refl "http://")
          simp [resolveAddress, hd2, hh2]
    · have hres : resolveAddress u = "http://www.google.com/search?q=" ++ u := by
        simp [resolveAddress, hdot]
      rw [hres]
      have hd2 : isSubstr "." ("http://www.google.com/search?q=" ++ u) = true :=
        isSubstr_append_left "." "http://www.google.com/search?q=" u (by decide)
      have hh2 : isSubstr "http://" ("http://www.google.com/search?q=" ++ u) = true :=
        isSubstr_append_left "http://" "http://www.google.com/search?q=" u (by decide)
      simp [resolveAddress, hd2, hh2]

/-- C8, witness: a dotted host gets `http://` prefixed, a bare word
becomes a search query, and an `http://`-prefixed dotted URL is kept. -/
theorem C8_witness :
    resolveAddress "example.com" = "http://example.com"
    ∧ resolveAddress "qutebrowser" = "http://www.google.com/search?q=qutebrowser"
    ∧ resolveAddress "http://example.com" = "http://example.com" := by
  exact ⟨(C8_amended_resolution "example.com").2.1 (by decide) (by decide) (by decide),
         (C8_amended_resolution "qutebrowser").1 (by decide),
         (C8_amended_resolution "http://example.com").2.2.1 (by decide)
           (Or.inl (by decide))⟩

/-- C9: hovering never changes the rendered text — `set_hover_url` only
logs and stores the hover URL, which nothing reads back: after setting a
normal URL and hovering a different link, the line edit still shows the
normal URL, not the hover text the claim (and the method's own
docstring) promise. -/
theorem C9_hover_display_bug :
    (∀ (l : String) (v : Bool) (d : String) (st : St),
        (set_hover_url l v d st).urlText = st.urlText)
  ∧ (runEvents [Event.setUrl (UrlArg.valid "http://example.com/"),
        Event.hover "http://other.example/" true "http://other.example/"] []).urlText
      = "http://example.com/"
  ∧ (runEvents [Event.setUrl (UrlArg.valid "http://example.com/"),
        Event.hover "http://other.example/" true "http://other.example/"] []).hoverUrl
      = some "http://other.example/" := by
  refine ⟨?_, by decide, by decide⟩
  intro l v d st
  simp only [set_hover_url, add_log]
  split
  · split <;> rfl
  · rfl

/-- C10: along every event trace, the widget's `previous_url` — the very
variable `getGoogleRanking` matches result links against — equals the
payload of the most recent `URL_CHANGED` trace line (null before the
first); a completed load appends its `RANK` line computed from exactly
that value and the previous capture; and that value can be the literal
`"Invalid URL!"` marker (after an invalid URL is set) or the empty
string (after the URL is cleared) rather than a raw navigated URL. -/
theorem C10_fragment_is_dedup_var (es : List Event) (files : List (Nat × NodeList)) :
    (runEvents es files).previousUrl = lastUrlChanged (runEvents es files).log
  ∧ (∀ h, ((dump_html h (runEvents es files)).1).log
      = (runEvents es files).log
        ++ [.loadFinished (probe (keys (runEvents es files).files))
              (runEvents es files).urlText]
        ++ rankEntries (lastUrlChanged (runEvents es files).log)
              (runEvents es files).lastHtml)
  ∧ (∀ r, (runEvents (es ++ [Event.setUrl (UrlArg.invalid r)]) files).previousUrl
        = some "Invalid URL!")
  ∧ (runEvents (es ++ [Event.setUrl UrlArg.null]) files).previousUrl = some "" := by
  have hinv : (runEvents es files).previousUrl = lastUrlChanged (runEvents es files).log :=
    foldl_step_inv (fun st => st.previousUrl = lastUrlChanged st.log) step_inv
      es (initState files) rfl
  refine ⟨hinv, ?_, ?_, ?_⟩
  · intro h
    obtain ⟨hlog, _⟩ := dump_html_spec h (runEvents es files)
    rw [hlog, hinv]
  · intro r
    rw [runEvents, List.foldl_append]
    simp only [List.foldl_cons, List.foldl_nil]
    rw [show step (Event.setUrl (UrlArg.invalid r)) (List.foldl (fun s e => step e s) (initState files) es)
          = updateUrl { List.foldl (fun s e => step e s) (initState files) es with
              normalUrl := some "Invalid URL!", normalUrlType := .normal } from rfl]
    rw [updateUrl_previousUrl]
    rfl
  · rw [runEvents, List.foldl_append]
    simp only [List.foldl_cons, List.foldl_nil]
    rw [show step (Event.setUrl UrlArg.null) (List.foldl (fun s e => step e s) (initState files) es)
          = updateUrl { List.foldl (fun s e => step e s) (initState files) es with
              normalUrl := none, normalUrlType := .normal } from rfl]
    rw [updateUrl_previousUrl]
    rfl

end Urlbar
